import Mathlib

/-!
Verification of the pose-visualization utility (src/util.py).

The single source function, visualize_poses, reads up to three files
(protein, optional cognate, poses) and issues a straight-line sequence of
viewer commands (addModel, setStyle, addStyle, addModelsAsFrames, animate,
zoomTo, rotate) on a py3Dmol view object, which it returns.

We embed the function as a pure Lean function over an abstract filesystem
fs : String -> Option String (none means the path is unreadable).  The
function produces both the full sequence of observable events (file reads
interleaved with viewer commands, in issue order) and the returned viewer,
modelled as the list of commands accumulated on it, or an error naming the
unreadable path when a read fails (Python raises OSError there and the
function aborts).
-/

namespace PoseViz

/-- One py3Dmol viewer command, as issued by visualize_poses.  Numeric
style constants that are Python floats (radius 0.1 / 0.25, opacity 0.7,
scale 0.7) are carried verbatim as decimal strings. -/
inductive Cmd where
  /-- v.addModel(content) -/
  | addModel (content : String)
  /-- v.addModelsAsFrames(content) -/
  | addModelsAsFrames (content : String)
  /-- v.setStyle with no selector: cartoon plus stick of radius 0.1 -/
  | setStyleAll
  /-- v.setStyle on a model selector: stick with a colorscheme and an
  optional radius -/
  | setStyleModel (model : Nat) (colorscheme : String) (radius : Option String)
  /-- v.addStyle on model and residue: sphere with color, opacity, scale -/
  | addStyleResi (model : Nat) (resi : String) (color : String)
      (opacity : String) (scale : String)
  /-- v.animate with a frame interval -/
  | animate (interval : Nat)
  /-- v.zoomTo on a model selector -/
  | zoomTo (model : Nat)
  /-- v.rotate by an angle in degrees -/
  | rotate (angle : Nat)
deriving DecidableEq, Repr

/-- An observable step of visualize_poses: a completed file read or a
viewer command. -/
inductive Event where
  /-- the file at the path was opened and read to the end -/
  | readF (path : String)
  /-- a viewer command was issued -/
  | cmd (c : Cmd)
deriving DecidableEq, Repr

/-- Outcome of a call: the event sequence up to return or abort, and the
returned viewer (its accumulated command list) or the unreadable path. -/
structure VPResult where
  events : List Event
  viewer : Except String (List Cmd)

/-- Python truthiness of an optional string argument: None and the empty
string are falsy. -/
def truthyStr : Option String → Bool
  | none => false
  | some s => !(s == "")

/-- Python truthiness of an optional list argument: None and the empty
list are falsy. -/
def truthyList : Option (List Int) → Bool
  | none => false
  | some l => !l.isEmpty

/-- The highlight loop of visualize_poses (source lines 56-59): when the
highlight_residues argument is truthy, one addStyle command per residue,
targeting model 0 at str(res), sphere colored magenta, opacity 0.7,
scale 0.7; otherwise nothing. -/
def highlightCmds (highlight_residues : Option (List Int)) : List Cmd :=
  if truthyList highlight_residues then
    (highlight_residues.getD []).map (fun res =>
      Cmd.addStyleResi 0 (toString res) "magenta" "0.7" "0.7")
  else []

/-- The pose block of visualize_poses (source lines 72-80): if animate,
addModelsAsFrames plus stick styling of model model_offset+1 plus an
animate command with interval 1000; else addModel plus the same styling. -/
def poseCmds (animate : Bool) (pose_content pose_color : String)
    (model_offset : Nat) : List Cmd :=
  if animate then
    [Cmd.addModelsAsFrames pose_content,
     Cmd.setStyleModel (model_offset + 1) (pose_color ++ "Carbon") none,
     Cmd.animate 1000]
  else
    [Cmd.addModel pose_content,
     Cmd.setStyleModel (model_offset + 1) (pose_color ++ "Carbon") none]

/-- The tail of visualize_poses from the pose-file read onwards (source
lines 68-93): read the pose file (abort on failure), issue the pose block,
then zoomTo the given model and rotate 270.  The prior events and viewer
commands are passed in and extended. -/
def posePart (fs : String → Option String) (pose_file pose_color : String)
    (animate : Bool) (model_offset zoom_model : Nat)
    (ev : List Event) (cmds : List Cmd) : VPResult :=
  match fs pose_file with
  | none => ⟨ev, Except.error pose_file⟩
  | some pose_content =>
    let tail := poseCmds animate pose_content pose_color model_offset
        ++ [Cmd.zoomTo zoom_model, Cmd.rotate 270]
    ⟨ev ++ [Event.readF pose_file] ++ tail.map Event.cmd,
     Except.ok (cmds ++ tail)⟩

/-- Shallow embedding of visualize_poses (src/util.py lines 5-93), the
variant with residue highlighting.  Defaults resolve first (None becomes
yellow / green); the protein file is read and added, styled cartoon plus
stick; highlight commands follow; if cognate_file is truthy it is read,
added and styled as stick model 1 with radius 0.25; model_offset is 1 when
cognate_file is truthy else 0; the pose file is read and handled by the
pose block; zoom_model is 1 when cognate_file is truthy else
model_offset + 1; finally zoomTo and rotate 270.  A failed read aborts
with the offending path. -/
def visualize_poses (fs : String → Option String)
    (protein_file pose_file : String)
    (cognate_file : Option String)
    (animate : Bool)
    (cognate_color pose_color : Option String)
    (highlight_residues : Option (List Int)) : VPResult :=
  let cognate_color := cognate_color.getD "yellow"
  let pose_color := pose_color.getD "green"
  match fs protein_file with
  | none => ⟨[], Except.error protein_file⟩
  | some protein_content =>
    let base := [Cmd.addModel protein_content, Cmd.setStyleAll]
        ++ highlightCmds highlight_residues
    let ev := Event.readF protein_file :: base.map Event.cmd
    if truthyStr cognate_file then
      let path := cognate_file.getD ""
      match fs path with
      | none => ⟨ev, Except.error path⟩
      | some cognate_content =>
        let cogCmds := [Cmd.addModel cognate_content,
          Cmd.setStyleModel 1 (cognate_color ++ "Carbon") (some "0.25")]
        posePart fs pose_file pose_color animate 1 1
          (ev ++ [Event.readF path] ++ cogCmds.map Event.cmd)
          (base ++ cogCmds)
    else
      posePart fs pose_file pose_color animate 0 (0 + 1) ev base

/-- Modelled from the spec: the repository is described as providing two
near-duplicate functions, but only the highlighting variant (Variant B)
appears under src/.  Variant A, per the spec, performs the same load and
styling steps without the residue-highlight overlay, and its zoom index is
1 if a cognate is present else 0. -/
def visualize_poses_A (fs : String → Option String)
    (protein_file pose_file : String)
    (cognate_file : Option String)
    (animate : Bool)
    (cognate_color pose_color : Option String) : VPResult :=
  let cognate_color := cognate_color.getD "yellow"
  let pose_color := pose_color.getD "green"
  match fs protein_file with
  | none => ⟨[], Except.error protein_file⟩
  | some protein_content =>
    let base := [Cmd.addModel protein_content, Cmd.setStyleAll]
    let ev := Event.readF protein_file :: base.map Event.cmd
    if truthyStr cognate_file then
      let path := cognate_file.getD ""
      match fs path with
      | none => ⟨ev, Except.error path⟩
      | some cognate_content =>
        let cogCmds := [Cmd.addModel cognate_content,
          Cmd.setStyleModel 1 (cognate_color ++ "Carbon") (some "0.25")]
        posePart fs pose_file pose_color animate 1 1
          (ev ++ [Event.readF path] ++ cogCmds.map Event.cmd)
          (base ++ cogCmds)
    else
      posePart fs pose_file pose_color animate 0 0 ev base

/-- The commands accumulated on the returned viewer, or the empty list when
the call aborted with an error. -/
def viewerCmds (r : VPResult) : List Cmd :=
  match r.viewer with
  | Except.ok cs => cs
  | Except.error _ => []

/-- Whether the call aborted with a file error. -/
def isErr (r : VPResult) : Bool :=
  match r.viewer with
  | Except.ok _ => false
  | Except.error _ => true

/-- The commands among a list of events, in issue order. -/
def cmdsOf (l : List Event) : List Cmd :=
  l.filterMap (fun e => match e with | Event.cmd c => some c | _ => none)

/-- Contents added as models (addModel or addModelsAsFrames), in load
order; position in this list is the model index. -/
def modelContents (l : List Cmd) : List String :=
  l.filterMap (fun c => match c with
    | Cmd.addModel s => some s
    | Cmd.addModelsAsFrames s => some s
    | _ => none)

/-- Model indices targeted by model-selector setStyle commands, in order. -/
def styleTargets (l : List Cmd) : List Nat :=
  l.filterMap (fun c => match c with
    | Cmd.setStyleModel m _ _ => some m
    | _ => none)

/-- Model indices targeted by zoomTo commands, in order. -/
def zoomTargets (l : List Cmd) : List Nat :=
  l.filterMap (fun c => match c with
    | Cmd.zoomTo m => some m
    | _ => none)

/-- Angles of rotate commands, in order. -/
def rotations (l : List Cmd) : List Nat :=
  l.filterMap (fun c => match c with
    | Cmd.rotate a => some a
    | _ => none)

/-- Intervals of animate commands, in order. -/
def animations (l : List Cmd) : List Nat :=
  l.filterMap (fun c => match c with
    | Cmd.animate i => some i
    | _ => none)

/-- The sphere-highlight commands, as tuples (model, resi, color, opacity,
scale), in issue order. -/
def highlightsOf (l : List Cmd) : List (Nat × String × String × String × String) :=
  l.filterMap (fun c => match c with
    | Cmd.addStyleResi m r col o s => some (m, r, col, o, s)
    | _ => none)

/-- Unfolding of a successful call without a cognate file: the event trace
and returned command list in closed form. -/
lemma vp_eq_no_cog (fs : String → Option String) (pf sf : String)
    (cf : Option String) (an : Bool) (cc pc : Option String)
    (hr : Option (List Int)) (pcont scont : String)
    (hp : fs pf = some pcont) (hs : fs sf = some scont)
    (hcf : truthyStr cf = false) :
    visualize_poses fs pf sf cf an cc pc hr =
      ⟨Event.readF pf ::
          (([Cmd.addModel pcont, Cmd.setStyleAll] ++ highlightCmds hr).map Event.cmd
          ++ [Event.readF sf]
          ++ (poseCmds an scont (pc.getD "green") 0
              ++ [Cmd.zoomTo (0 + 1), Cmd.rotate 270]).map Event.cmd),
        Except.ok (([Cmd.addModel pcont, Cmd.setStyleAll] ++ highlightCmds hr)
          ++ (poseCmds an scont (pc.getD "green") 0
              ++ [Cmd.zoomTo (0 + 1), Cmd.rotate 270]))⟩ := by
  simp [visualize_poses, posePart, hp, hs, hcf]

/-- Unfolding of a successful call with a (truthy) cognate file: the event
trace and returned command list in closed form. -/
lemma vp_eq_cog (fs : String → Option String) (pf sf q : String)
    (an : Bool) (cc pc : Option String)
    (hr : Option (List Int)) (pcont ccont scont : String)
    (hp : fs pf = some pcont) (hq : fs q = some ccont)
    (hs : fs sf = some scont) (hne : q ≠ "") :
    visualize_poses fs pf sf (some q) an cc pc hr =
      ⟨Event.readF pf ::
          (([Cmd.addModel pcont, Cmd.setStyleAll] ++ highlightCmds hr).map Event.cmd
          ++ [Event.readF q]
          ++ [Event.cmd (Cmd.addModel ccont),
              Event.cmd (Cmd.setStyleModel 1 ((cc.getD "yellow") ++ "Carbon") (some "0.25"))]
          ++ [Event.readF sf]
          ++ (poseCmds an scont (pc.getD "green") 1
              ++ [Cmd.zoomTo 1, Cmd.rotate 270]).map Event.cmd),
        Except.ok (([Cmd.addModel pcont, Cmd.setStyleAll] ++ highlightCmds hr)
          ++ [Cmd.addModel ccont,
              Cmd.setStyleModel 1 ((cc.getD "yellow") ++ "Carbon") (some "0.25")]
          ++ (poseCmds an scont (pc.getD "green") 1
              ++ [Cmd.zoomTo 1, Cmd.rotate 270]))⟩ := by
  have hq' : truthyStr (some q) = true := by
    simp [truthyStr, hne]
  simp [visualize_poses, posePart, hp, hq, hs, hq']

/-- An unreadable protein file aborts the call at once: no events, error
carrying the protein path. -/
lemma vp_protein_err (fs : String → Option String) (pf sf : String)
    (cf : Option String) (an : Bool) (cc pc : Option String)
    (hr : Option (List Int)) (hp : fs pf = none) :
    visualize_poses fs pf sf cf an cc pc hr = ⟨[], Except.error pf⟩ := by
  simp [visualize_poses, hp]

lemma viewerCmds_mk (ev : List Event) (cs : List Cmd) :
    viewerCmds ⟨ev, Except.ok cs⟩ = cs := rfl

lemma modelContents_append (a b : List Cmd) :
    modelContents (a ++ b) = modelContents a ++ modelContents b := by
  simp [modelContents]

lemma styleTargets_append (a b : List Cmd) :
    styleTargets (a ++ b) = styleTargets a ++ styleTargets b := by
  simp [styleTargets]

lemma zoomTargets_append (a b : List Cmd) :
    zoomTargets (a ++ b) = zoomTargets a ++ zoomTargets b := by
  simp [zoomTargets]

lemma rotations_append (a b : List Cmd) :
    rotations (a ++ b) = rotations a ++ rotations b := by
  simp [rotations]

lemma animations_append (a b : List Cmd) :
    animations (a ++ b) = animations a ++ animations b := by
  simp [animations]

lemma highlightsOf_append (a b : List Cmd) :
    highlightsOf (a ++ b) = highlightsOf a ++ highlightsOf b := by
  simp [highlightsOf]

lemma modelContents_highlightCmds (hr : Option (List Int)) :
    modelContents (highlightCmds hr) = [] := by
  unfold highlightCmds
  split <;> simp [modelContents, List.filterMap_map, Function.comp]

lemma styleTargets_highlightCmds (hr : Option (List Int)) :
    styleTargets (highlightCmds hr) = [] := by
  unfold highlightCmds
  split <;> simp [styleTargets, List.filterMap_map, Function.comp]

lemma zoomTargets_highlightCmds (hr : Option (List Int)) :
    zoomTargets (highlightCmds hr) = [] := by
  unfold highlightCmds
  split <;> simp [zoomTargets, List.filterMap_map, Function.comp]

lemma rotations_highlightCmds (hr : Option (List Int)) :
    rotations (highlightCmds hr) = [] := by
  unfold highlightCmds
  split <;> simp [rotations, List.filterMap_map, Function.comp]

lemma animations_highlightCmds (hr : Option (List Int)) :
    animations (highlightCmds hr) = [] := by
  unfold highlightCmds
  split <;> simp [animations, List.filterMap_map, Function.comp]

lemma highlightsOf_map_addStyle (l : List Int) :
    highlightsOf (l.map (fun res =>
        Cmd.addStyleResi 0 (toString res) "magenta" "0.7" "0.7"))
      = l.map (fun res => (0, toString res, "magenta", "0.7", "0.7")) := by
  induction l with
  | nil => rfl
  | cons a t ih =>
    simp only [highlightsOf, List.map_cons, List.filterMap_cons] at ih ⊢
    simp_all

lemma highlightsOf_highlightCmds (hr : Option (List Int)) :
    highlightsOf (highlightCmds hr) =
      if truthyList hr then
        (hr.getD []).map (fun res => (0, toString res, "magenta", "0.7", "0.7"))
      else [] := by
  unfold highlightCmds
  split
  · rw [highlightsOf_map_addStyle]
  · simp_all [highlightsOf]

lemma modelContents_poseCmds (an : Bool) (s p : String) (off : Nat) :
    modelContents (poseCmds an s p off) = [s] := by
  cases an <;> simp [poseCmds, modelContents]

lemma styleTargets_poseCmds (an : Bool) (s p : String) (off : Nat) :
    styleTargets (poseCmds an s p off) = [off + 1] := by
  cases an <;> simp [poseCmds, styleTargets]

lemma zoomTargets_poseCmds (an : Bool) (s p : String) (off : Nat) :
    zoomTargets (poseCmds an s p off) = [] := by
  cases an <;> simp [poseCmds, zoomTargets]

lemma rotations_poseCmds (an : Bool) (s p : String) (off : Nat) :
    rotations (poseCmds an s p off) = [] := by
  cases an <;> simp [poseCmds, rotations]

lemma animations_poseCmds (an : Bool) (s p : String) (off : Nat) :
    animations (poseCmds an s p off) = if an then [1000] else [] := by
  cases an <;> simp [poseCmds, animations]

lemma highlightsOf_poseCmds (an : Bool) (s p : String) (off : Nat) :
    highlightsOf (poseCmds an s p off) = [] := by
  cases an <;> simp [poseCmds, highlightsOf]

/-- An unreadable cognate file aborts after the protein block: the events
are the protein read, its styling and the highlights; error carries the
cognate path. -/
lemma vp_cog_err (fs : String → Option String) (pf sf q : String)
    (an : Bool) (cc pc : Option String) (hr : Option (List Int))
    (pcont : String)
    (hp : fs pf = some pcont) (hq : fs q = none) (hne : q ≠ "") :
    visualize_poses fs pf sf (some q) an cc pc hr =
      ⟨Event.readF pf ::
          ([Cmd.addModel pcont, Cmd.setStyleAll] ++ highlightCmds hr).map Event.cmd,
        Except.error q⟩ := by
  have hq' : truthyStr (some q) = true := by simp [truthyStr, hne]
  simp [visualize_poses, hp, hq, hq']

/-- An unreadable pose file with no cognate aborts after the protein block;
error carries the pose path. -/
lemma vp_pose_err_no_cog (fs : String → Option String) (pf sf : String)
    (cf : Option String) (an : Bool) (cc pc : Option String)
    (hr : Option (List Int)) (pcont : String)
    (hp : fs pf = some pcont) (hs : fs sf = none)
    (hcf : truthyStr cf = false) :
    visualize_poses fs pf sf cf an cc pc hr =
      ⟨Event.readF pf ::
          ([Cmd.addModel pcont, Cmd.setStyleAll] ++ highlightCmds hr).map Event.cmd,
        Except.error sf⟩ := by
  simp [visualize_poses, posePart, hp, hs, hcf]

/-- An unreadable pose file with a readable cognate aborts after the
cognate block; error carries the pose path. -/
lemma vp_pose_err_cog (fs : String → Option String) (pf sf q : String)
    (an : Bool) (cc pc : Option String) (hr : Option (List Int))
    (pcont ccont : String)
    (hp : fs pf = some pcont) (hq : fs q = some ccont) (hs : fs sf = none)
    (hne : q ≠ "") :
    visualize_poses fs pf sf (some q) an cc pc hr =
      ⟨Event.readF pf ::
          (([Cmd.addModel pcont, Cmd.setStyleAll] ++ highlightCmds hr).map Event.cmd
          ++ [Event.readF q]
          ++ [Event.cmd (Cmd.addModel ccont),
              Event.cmd (Cmd.setStyleModel 1 ((cc.getD "yellow") ++ "Carbon") (some "0.25"))]),
        Except.error sf⟩ := by
  have hq' : truthyStr (some q) = true := by simp [truthyStr, hne]
  simp [visualize_poses, posePart, hp, hq, hs, hq']

/-- Unfolding of a successful Variant A call without a cognate: as for the
source variant, but with no highlight block and zoom to model 0. -/
lemma vpA_eq_no_cog (fs : String → Option String) (pf sf : String)
    (cf : Option String) (an : Bool) (cc pc : Option String)
    (pcont scont : String)
    (hp : fs pf = some pcont) (hs : fs sf = some scont)
    (hcf : truthyStr cf = false) :
    visualize_poses_A fs pf sf cf an cc pc =
      ⟨Event.readF pf ::
          (([Cmd.addModel pcont, Cmd.setStyleAll]).map Event.cmd
          ++ [Event.readF sf]
          ++ (poseCmds an scont (pc.getD "green") 0
              ++ [Cmd.zoomTo 0, Cmd.rotate 270]).map Event.cmd),
        Except.ok ([Cmd.addModel pcont, Cmd.setStyleAll]
          ++ (poseCmds an scont (pc.getD "green") 0
              ++ [Cmd.zoomTo 0, Cmd.rotate 270]))⟩ := by
  simp [visualize_poses_A, posePart, hp, hs, hcf]

/-- Unfolding of a successful Variant A call with a cognate: zoom to
model 1, as in the source variant. -/
lemma vpA_eq_cog (fs : String → Option String) (pf sf q : String)
    (an : Bool) (cc pc : Option String)
    (pcont ccont scont : String)
    (hp : fs pf = some pcont) (hq : fs q = some ccont)
    (hs : fs sf = some scont) (hne : q ≠ "") :
    visualize_poses_A fs pf sf (some q) an cc pc =
      ⟨Event.readF pf ::
          (([Cmd.addModel pcont, Cmd.setStyleAll]).map Event.cmd
          ++ [Event.readF q]
          ++ [Event.cmd (Cmd.addModel ccont),
              Event.cmd (Cmd.setStyleModel 1 ((cc.getD "yellow") ++ "Carbon") (some "0.25"))]
          ++ [Event.readF sf]
          ++ (poseCmds an scont (pc.getD "green") 1
              ++ [Cmd.zoomTo 1, Cmd.rotate 270]).map Event.cmd),
        Except.ok ([Cmd.addModel pcont, Cmd.setStyleAll]
          ++ [Cmd.addModel ccont,
              Cmd.setStyleModel 1 ((cc.getD "yellow") ++ "Carbon") (some "0.25")]
          ++ (poseCmds an scont (pc.getD "green") 1
              ++ [Cmd.zoomTo 1, Cmd.rotate 270]))⟩ := by
  have hq' : truthyStr (some q) = true := by simp [truthyStr, hne]
  simp [visualize_poses_A, posePart, hp, hq, hs, hq']

lemma cmdsOf_map_cmd (l : List Cmd) : cmdsOf (l.map Event.cmd) = l := by
  induction l with
  | nil => rfl
  | cons a t ih =>
    simp only [cmdsOf, List.map_cons, List.filterMap_cons] at ih ⊢
    simp_all

lemma cmdsOf_append (a b : List Event) :
    cmdsOf (a ++ b) = cmdsOf a ++ cmdsOf b := by
  simp [cmdsOf]

/-- A call with highlight_residues = none issues no sphere-highlight
command in its whole event trace, for every filesystem and argument. -/
lemma no_highlights_of_none (fs : String → Option String) (pf sf : String)
    (cf : Option String) (an : Bool) (cc pc : Option String) :
    highlightsOf (cmdsOf (visualize_poses fs pf sf cf an cc pc none).events) = [] := by
  rcases hfp : fs pf with _ | pcont
  · rw [vp_protein_err fs pf sf cf an cc pc none hfp]
    rfl
  · rcases htr : truthyStr cf with _ | _
    · rcases hfs : fs sf with _ | scont
      · rw [vp_pose_err_no_cog fs pf sf cf an cc pc none pcont hfp hfs htr]
        cases an <;> simp [cmdsOf, highlightsOf, highlightCmds, truthyList]
      · rw [vp_eq_no_cog fs pf sf cf an cc pc none pcont scont hfp hfs htr]
        cases an <;>
          simp [cmdsOf, highlightsOf, highlightCmds, truthyList, poseCmds]
    · rcases cf with _ | q
      · simp [truthyStr] at htr
      · have hne : q ≠ "" := by
          intro h
          subst h
          simp [truthyStr] at htr
        rcases hfq : fs q with _ | ccont
        · rw [vp_cog_err fs pf sf q an cc pc none pcont hfp hfq hne]
          cases an <;> simp [cmdsOf, highlightsOf, highlightCmds, truthyList]
        · rcases hfs : fs sf with _ | scont
          · rw [vp_pose_err_cog fs pf sf q an cc pc none pcont ccont hfp hfq hfs hne]
            cases an <;> simp [cmdsOf, highlightsOf, highlightCmds, truthyList]
          · rw [vp_eq_cog fs pf sf q an cc pc none pcont ccont scont hfp hfq hfs hne]
            cases an <;>
              simp [cmdsOf, highlightsOf, highlightCmds, truthyList, poseCmds]

/-- A concrete readable filesystem used by witnesses: three files exist. -/
def fsEx : String → Option String := fun p =>
  if p = "prot.pdb" then some "PROT"
  else if p = "cog.sdf" then some "COG"
  else if p = "poses.sdf" then some "POSES"
  else none

/-- C1 counterexample: the claim states that with cognate_file set, all pose
styling and zoom commands target model index 2; but in a concrete call with
a cognate file the zoom command issued targets model 1 (the cognate), and no
command zooms to model 2. -/
theorem c1_counterexample :
    Event.cmd (Cmd.zoomTo 1) ∈
      (visualize_poses fsEx "prot.pdb" "poses.sdf" (some "cog.sdf")
        true none none none).events
    ∧ Event.cmd (Cmd.zoomTo 2) ∉
      (visualize_poses fsEx "prot.pdb" "poses.sdf" (some "cog.sdf")
        true none none none).events := by
  decide

/-- C1 (amended): model indices follow strict load order.  With no cognate
the protein is model 0 (first loaded), the poses are model 1, and pose
styling and zoom commands target index 1.  With a cognate the cognate is
model 1 (second loaded), poses are model 2, pose styling targets index 2,
cognate styling targets index 1, and the zoom command targets the cognate
at index 1 rather than index 2. -/
theorem c1_model_indices (fs : String → Option String) (pf sf : String)
    (an : Bool) (cc pc : Option String) (hr : Option (List Int))
    (pcont scont : String)
    (hp : fs pf = some pcont) (hs : fs sf = some scont) :
    (modelContents (viewerCmds (visualize_poses fs pf sf none an cc pc hr))
        = [pcont, scont]
      ∧ styleTargets (viewerCmds (visualize_poses fs pf sf none an cc pc hr))
        = [1]
      ∧ zoomTargets (viewerCmds (visualize_poses fs pf sf none an cc pc hr))
        = [1])
    ∧ (∀ q ccont, q ≠ "" → fs q = some ccont →
        modelContents (viewerCmds (visualize_poses fs pf sf (some q) an cc pc hr))
          = [pcont, ccont, scont]
        ∧ styleTargets (viewerCmds (visualize_poses fs pf sf (some q) an cc pc hr))
          = [1, 2]
        ∧ zoomTargets (viewerCmds (visualize_poses fs pf sf (some q) an cc pc hr))
          = [1]) := by
  constructor
  · rw [vp_eq_no_cog fs pf sf none an cc pc hr pcont scont hp hs rfl]
    simp only [viewerCmds_mk, modelContents_append, styleTargets_append,
      zoomTargets_append, modelContents_highlightCmds, styleTargets_highlightCmds,
      zoomTargets_highlightCmds, modelContents_poseCmds, styleTargets_poseCmds,
      zoomTargets_poseCmds]
    refine ⟨?_, ?_, ?_⟩ <;> simp [modelContents, styleTargets, zoomTargets]
  · intro q ccont hne hq
    rw [vp_eq_cog fs pf sf q an cc pc hr pcont ccont scont hp hq hs hne]
    simp only [viewerCmds_mk, modelContents_append, styleTargets_append,
      zoomTargets_append, modelContents_highlightCmds, styleTargets_highlightCmds,
      zoomTargets_highlightCmds, modelContents_poseCmds, styleTargets_poseCmds,
      zoomTargets_poseCmds]
    refine ⟨?_, ?_, ?_⟩ <;> simp [modelContents, styleTargets, zoomTargets]

/-- C1 witness: the amended theorem applied at a concrete readable
filesystem, without a cognate: models load as protein then poses, pose
styling and zoom target index 1. -/
theorem c1_model_indices_witness :
    modelContents (viewerCmds (visualize_poses fsEx "prot.pdb" "poses.sdf"
        none true none none none)) = ["PROT", "POSES"]
    ∧ styleTargets (viewerCmds (visualize_poses fsEx "prot.pdb" "poses.sdf"
        none true none none none)) = [1]
    ∧ zoomTargets (viewerCmds (visualize_poses fsEx "prot.pdb" "poses.sdf"
        none true none none none)) = [1] :=
  (c1_model_indices fsEx "prot.pdb" "poses.sdf" true none none none
    "PROT" "POSES" rfl rfl).1

/-- C2: an animate command is issued exactly once with interval 1000 when
animate is true, and never when animate is false; when animate is false the
pose content is instead added as a static model styled with the same pose
stick colorscheme. -/
theorem c2_animation (fs : String → Option String) (pf sf : String)
    (cf : Option String) (an : Bool) (cc pc : Option String)
    (hr : Option (List Int)) (pcont scont : String)
    (hp : fs pf = some pcont) (hs : fs sf = some scont)
    (hcf : cf = none ∨ ∃ q, cf = some q ∧ q ≠ "" ∧ ∃ ccont, fs q = some ccont) :
    animations (viewerCmds (visualize_poses fs pf sf cf an cc pc hr))
      = (if an then [1000] else [])
    ∧ (an = false →
        Cmd.addModel scont ∈ viewerCmds (visualize_poses fs pf sf cf an cc pc hr)
        ∧ Cmd.setStyleModel ((if truthyStr cf then 1 else 0) + 1)
            ((pc.getD "green") ++ "Carbon") none
          ∈ viewerCmds (visualize_poses fs pf sf cf an cc pc hr)) := by
  rcases hcf with rfl | ⟨q, rfl, hne, ccont, hq⟩
  · rw [vp_eq_no_cog fs pf sf none an cc pc hr pcont scont hp hs rfl]
    constructor
    · simp only [viewerCmds_mk, animations_append, animations_highlightCmds,
        animations_poseCmds]
      simp [animations]
    · intro han
      subst han
      simp [viewerCmds_mk, poseCmds, truthyStr]
  · rw [vp_eq_cog fs pf sf q an cc pc hr pcont ccont scont hp hq hs hne]
    constructor
    · simp only [viewerCmds_mk, animations_append, animations_highlightCmds,
        animations_poseCmds]
      simp [animations]
    · intro han
      subst han
      simp [viewerCmds_mk, poseCmds, truthyStr, hne]

/-- C2 witness: concrete call without animation: no animate command, and
the static pose model with its stick styling is present. -/
theorem c2_animation_witness :
    animations (viewerCmds (visualize_poses fsEx "prot.pdb" "poses.sdf"
        none false none none none)) = []
    ∧ Cmd.addModel "POSES" ∈ viewerCmds (visualize_poses fsEx "prot.pdb"
        "poses.sdf" none false none none none)
    ∧ Cmd.setStyleModel 1 ("green" ++ "Carbon") none
      ∈ viewerCmds (visualize_poses fsEx "prot.pdb" "poses.sdf"
        none false none none none) := by
  have h := c2_animation fsEx "prot.pdb" "poses.sdf" none false none none none
    "PROT" "POSES" rfl rfl (Or.inl rfl)
  exact ⟨h.1, (h.2 rfl).1, (h.2 rfl).2⟩

/-- C3: the zoom command targets model 1 when a cognate is given and the
pose model (offset + 1 = 1) when none is given, never model 0; the trace
ends with the zoom followed by exactly one rotate of 270 degrees. -/
theorem c3_zoom_rotate (fs : String → Option String) (pf sf : String)
    (an : Bool) (cc pc : Option String) (hr : Option (List Int))
    (pcont scont : String)
    (hp : fs pf = some pcont) (hs : fs sf = some scont) :
    (zoomTargets (viewerCmds (visualize_poses fs pf sf none an cc pc hr))
        = [0 + 1]
      ∧ (0 : Nat) ∉ zoomTargets (viewerCmds (visualize_poses fs pf sf none an cc pc hr))
      ∧ rotations (viewerCmds (visualize_poses fs pf sf none an cc pc hr)) = [270]
      ∧ ∃ pre, viewerCmds (visualize_poses fs pf sf none an cc pc hr)
          = pre ++ [Cmd.zoomTo (0 + 1), Cmd.rotate 270])
    ∧ (∀ q ccont, q ≠ "" → fs q = some ccont →
        zoomTargets (viewerCmds (visualize_poses fs pf sf (some q) an cc pc hr))
          = [1]
        ∧ (0 : Nat) ∉ zoomTargets (viewerCmds (visualize_poses fs pf sf (some q) an cc pc hr))
        ∧ rotations (viewerCmds (visualize_poses fs pf sf (some q) an cc pc hr)) = [270]
        ∧ ∃ pre, viewerCmds (visualize_poses fs pf sf (some q) an cc pc hr)
            = pre ++ [Cmd.zoomTo 1, Cmd.rotate 270]) := by
  constructor
  · rw [vp_eq_no_cog fs pf sf none an cc pc hr pcont scont hp hs rfl]
    refine ⟨?_, ?_, ?_, ?_⟩
    · simp only [viewerCmds_mk, zoomTargets_append, zoomTargets_highlightCmds,
        zoomTargets_poseCmds]
      simp [zoomTargets]
    · simp only [viewerCmds_mk, zoomTargets_append, zoomTargets_highlightCmds,
        zoomTargets_poseCmds]
      simp [zoomTargets]
    · simp only [viewerCmds_mk, rotations_append, rotations_highlightCmds,
        rotations_poseCmds]
      simp [rotations]
    · refine ⟨([Cmd.addModel pcont, Cmd.setStyleAll] ++ highlightCmds hr)
        ++ poseCmds an scont (pc.getD "green") 0, ?_⟩
      simp [viewerCmds_mk]
  · intro q ccont hne hq
    rw [vp_eq_cog fs pf sf q an cc pc hr pcont ccont scont hp hq hs hne]
    refine ⟨?_, ?_, ?_, ?_⟩
    · simp only [viewerCmds_mk, zoomTargets_append, zoomTargets_highlightCmds,
        zoomTargets_poseCmds]
      simp [zoomTargets]
    · simp only [viewerCmds_mk, zoomTargets_append, zoomTargets_highlightCmds,
        zoomTargets_poseCmds]
      simp [zoomTargets]
    · simp only [viewerCmds_mk, rotations_append, rotations_highlightCmds,
        rotations_poseCmds]
      simp [rotations]
    · refine ⟨(([Cmd.addModel pcont, Cmd.setStyleAll] ++ highlightCmds hr)
        ++ [Cmd.addModel ccont,
            Cmd.setStyleModel 1 ((cc.getD "yellow") ++ "Carbon") (some "0.25")])
        ++ poseCmds an scont (pc.getD "green") 1, ?_⟩
      simp [viewerCmds_mk]

/-- C3 witness: concrete call with a cognate: zoom goes to model 1, not 0,
and a single rotate of 270 follows. -/
theorem c3_zoom_rotate_witness :
    zoomTargets (viewerCmds (visualize_poses fsEx "prot.pdb" "poses.sdf"
        (some "cog.sdf") true none none none)) = [1]
    ∧ (0 : Nat) ∉ zoomTargets (viewerCmds (visualize_poses fsEx "prot.pdb"
        "poses.sdf" (some "cog.sdf") true none none none))
    ∧ rotations (viewerCmds (visualize_poses fsEx "prot.pdb" "poses.sdf"
        (some "cog.sdf") true none none none)) = [270] := by
  have h := (c3_zoom_rotate fsEx "prot.pdb" "poses.sdf" true none none none
    "PROT" "POSES" rfl rfl).2 "cog.sdf" "COG" (by decide) rfl
  exact ⟨h.1, h.2.1, h.2.2.1⟩

/-- C4: with a non-empty highlight_residues list, exactly one sphere
highlight command is issued per residue in the list, each on model 0 at the
stringified residue, magenta, opacity 0.7, scale 0.7, for every animate
value and both with and without a cognate file. -/
theorem c4_highlights (fs : String → Option String) (pf sf : String)
    (an : Bool) (cc pc : Option String) (l : List Int)
    (pcont scont : String)
    (hp : fs pf = some pcont) (hs : fs sf = some scont) (hl : l ≠ []) :
    highlightsOf (viewerCmds (visualize_poses fs pf sf none an cc pc (some l)))
      = l.map (fun res => (0, toString res, "magenta", "0.7", "0.7"))
    ∧ (∀ q ccont, q ≠ "" → fs q = some ccont →
        highlightsOf (viewerCmds (visualize_poses fs pf sf (some q) an cc pc (some l)))
          = l.map (fun res => (0, toString res, "magenta", "0.7", "0.7"))) := by
  have htr : truthyList (some l) = true := by
    simp [truthyList, hl]
  constructor
  · rw [vp_eq_no_cog fs pf sf none an cc pc (some l) pcont scont hp hs rfl]
    simp only [viewerCmds_mk, highlightsOf_append, highlightsOf_highlightCmds,
      highlightsOf_poseCmds, htr]
    simp [highlightsOf]
  · intro q ccont hne hq
    rw [vp_eq_cog fs pf sf q an cc pc (some l) pcont ccont scont hp hq hs hne]
    simp only [viewerCmds_mk, highlightsOf_append, highlightsOf_highlightCmds,
      highlightsOf_poseCmds, htr]
    simp [highlightsOf]

/-- C4 witness: concrete call with highlight residues 45 and 102: exactly
the two expected sphere commands, in order, on model 0. -/
theorem c4_highlights_witness :
    highlightsOf (viewerCmds (visualize_poses fsEx "prot.pdb" "poses.sdf"
        none true none none (some [45, 102])))
      = [(0, "45", "magenta", "0.7", "0.7"), (0, "102", "magenta", "0.7", "0.7")] := by
  have h := (c4_highlights fsEx "prot.pdb" "poses.sdf" true none none
    [45, 102] "PROT" "POSES" rfl rfl (by decide)).1
  simpa using h

/-- C5: when cognate_color is not supplied the cognate styling uses the
yellow colorscheme, and when pose_color is not supplied the pose styling
uses the green colorscheme, in both the cognate and no-cognate cases. -/
theorem c5_default_colors (fs : String → Option String) (pf sf : String)
    (an : Bool) (cc pc : Option String) (hr : Option (List Int))
    (pcont scont : String)
    (hp : fs pf = some pcont) (hs : fs sf = some scont) :
    Cmd.setStyleModel 1 ("green" ++ "Carbon") none
      ∈ viewerCmds (visualize_poses fs pf sf none an cc none hr)
    ∧ (∀ q ccont, q ≠ "" → fs q = some ccont →
        Cmd.setStyleModel 1 ("yellow" ++ "Carbon") (some "0.25")
          ∈ viewerCmds (visualize_poses fs pf sf (some q) an none pc hr)
        ∧ Cmd.setStyleModel 2 ("green" ++ "Carbon") none
          ∈ viewerCmds (visualize_poses fs pf sf (some q) an cc none hr)) := by
  constructor
  · rw [vp_eq_no_cog fs pf sf none an cc none hr pcont scont hp hs rfl]
    cases an <;> simp [viewerCmds_mk, poseCmds]
  · intro q ccont hne hq
    constructor
    · rw [vp_eq_cog fs pf sf q an none pc hr pcont ccont scont hp hq hs hne]
      simp [viewerCmds_mk]
    · rw [vp_eq_cog fs pf sf q an cc none hr pcont ccont scont hp hq hs hne]
      cases an <;> simp [viewerCmds_mk, poseCmds]

/-- C5 witness: concrete calls with unspecified colors produce the
yellowCarbon cognate style and greenCarbon pose style. -/
theorem c5_default_colors_witness :
    Cmd.setStyleModel 1 ("green" ++ "Carbon") none
      ∈ viewerCmds (visualize_poses fsEx "prot.pdb" "poses.sdf"
        none true none none none)
    ∧ Cmd.setStyleModel 1 ("yellow" ++ "Carbon") (some "0.25")
      ∈ viewerCmds (visualize_poses fsEx "prot.pdb" "poses.sdf"
        (some "cog.sdf") true none none none) := by
  have h := c5_default_colors fsEx "prot.pdb" "poses.sdf" true none none none
    "PROT" "POSES" rfl rfl
  exact ⟨h.1, (h.2 "cog.sdf" "COG" (by decide) rfl).1⟩

/-- C6: the call returns an error exactly when one of the supplied input
paths is unreadable; any error value is one of the three input paths,
unchanged; and an unreadable protein file aborts before any event. -/
theorem c6_errors (fs : String → Option String) (pf sf : String)
    (cf : Option String) (an : Bool) (cc pc : Option String)
    (hr : Option (List Int))
    (hvalid : cf = none ∨ ∃ q, cf = some q ∧ q ≠ "") :
    (isErr (visualize_poses fs pf sf cf an cc pc hr) = true ↔
      (fs pf = none ∨ (∃ q, cf = some q ∧ fs q = none) ∨ fs sf = none))
    ∧ (∀ e, (visualize_poses fs pf sf cf an cc pc hr).viewer = Except.error e →
        e = pf ∨ cf = some e ∨ e = sf)
    ∧ (fs pf = none → (visualize_poses fs pf sf cf an cc pc hr).events = []) := by
  rcases hvalid with rfl | ⟨q, rfl, hne⟩
  · rcases hfp : fs pf with _ | pcont
    · rw [vp_protein_err fs pf sf none an cc pc hr hfp]
      refine ⟨by simp [isErr, hfp], ?_, by simp⟩
      intro e he
      simp only [Except.error.injEq] at he
      exact Or.inl he.symm
    · rcases hfs : fs sf with _ | scont
      · rw [vp_pose_err_no_cog fs pf sf none an cc pc hr pcont hfp hfs rfl]
        refine ⟨by simp [isErr, hfs], ?_, by simp [hfp]⟩
        intro e he
        simp only [Except.error.injEq] at he
        exact Or.inr (Or.inr he.symm)
      · rw [vp_eq_no_cog fs pf sf none an cc pc hr pcont scont hfp hfs rfl]
        refine ⟨by simp [isErr, hfp, hfs], ?_, by simp [hfp]⟩
        intro e he
        simp at he
  · rcases hfp : fs pf with _ | pcont
    · rw [vp_protein_err fs pf sf (some q) an cc pc hr hfp]
      refine ⟨by simp [isErr, hfp], ?_, by simp⟩
      intro e he
      simp only [Except.error.injEq] at he
      exact Or.inl he.symm
    · rcases hfq : fs q with _ | ccont
      · rw [vp_cog_err fs pf sf q an cc pc hr pcont hfp hfq hne]
        refine ⟨by simp [isErr, hfq], ?_, by simp [hfp]⟩
        intro e he
        simp only [Except.error.injEq] at he
        exact Or.inr (Or.inl (by rw [he]))
      · rcases hfs : fs sf with _ | scont
        · rw [vp_pose_err_cog fs pf sf q an cc pc hr pcont ccont hfp hfq hfs hne]
          refine ⟨by simp [isErr, hfs], ?_, by simp [hfp]⟩
          intro e he
          simp only [Except.error.injEq] at he
          exact Or.inr (Or.inr he.symm)
        · rw [vp_eq_cog fs pf sf q an cc pc hr pcont ccont scont hfp hfq hfs hne]
          refine ⟨by simp [isErr, hfp, hfq, hfs], ?_, by simp [hfp]⟩
          intro e he
          simp at he

/-- C6 witness: with all three files readable no error is reported, and
with an unreadable protein path the call errors. -/
theorem c6_errors_witness :
    isErr (visualize_poses fsEx "prot.pdb" "poses.sdf" (some "cog.sdf")
        true none none none) = false
    ∧ isErr (visualize_poses fsEx "missing.pdb" "poses.sdf" none
        true none none none) = true := by
  have h1 := (c6_errors fsEx "prot.pdb" "poses.sdf" (some "cog.sdf")
    true none none none (Or.inr ⟨"cog.sdf", rfl, by decide⟩)).1
  have h2 := (c6_errors fsEx "missing.pdb" "poses.sdf" none
    true none none none (Or.inl rfl)).1
  constructor
  · have : ¬ (fsEx "prot.pdb" = none
        ∨ (∃ r, (some "cog.sdf" : Option String) = some r ∧ fsEx r = none)
        ∨ fsEx "poses.sdf" = none) := by
      simp [fsEx]
    rcases h : isErr (visualize_poses fsEx "prot.pdb" "poses.sdf" (some "cog.sdf")
        true none none none) with _ | _
    · rfl
    · exact absurd (h1.mp h) this
  · exact h2.mpr (Or.inl (by decide))

/-- C7: Variant A (spec-modelled, no highlighting) zooms to model 1 when a
cognate is present and to model 0 otherwise, so in the no-cognate case its
zoom target differs from the source variant, which zooms to model 1. -/
theorem c7_variant_divergence (fs : String → Option String) (pf sf : String)
    (an : Bool) (cc pc : Option String) (hr : Option (List Int))
    (pcont scont : String)
    (hp : fs pf = some pcont) (hs : fs sf = some scont) :
    (zoomTargets (viewerCmds (visualize_poses_A fs pf sf none an cc pc)) = [0]
      ∧ zoomTargets (viewerCmds (visualize_poses fs pf sf none an cc pc hr)) = [1]
      ∧ zoomTargets (viewerCmds (visualize_poses_A fs pf sf none an cc pc))
          ≠ zoomTargets (viewerCmds (visualize_poses fs pf sf none an cc pc hr)))
    ∧ (∀ q ccont, q ≠ "" → fs q = some ccont →
        zoomTargets (viewerCmds (visualize_poses_A fs pf sf (some q) an cc pc)) = [1]) := by
  have hA : zoomTargets (viewerCmds (visualize_poses_A fs pf sf none an cc pc)) = [0] := by
    rw [vpA_eq_no_cog fs pf sf none an cc pc pcont scont hp hs rfl]
    simp only [viewerCmds_mk, zoomTargets_append, zoomTargets_poseCmds]
    simp [zoomTargets]
  have hB : zoomTargets (viewerCmds (visualize_poses fs pf sf none an cc pc hr)) = [1] := by
    rw [vp_eq_no_cog fs pf sf none an cc pc hr pcont scont hp hs rfl]
    simp only [viewerCmds_mk, zoomTargets_append, zoomTargets_highlightCmds,
      zoomTargets_poseCmds]
    simp [zoomTargets]
  refine ⟨⟨hA, hB, by rw [hA, hB]; decide⟩, ?_⟩
  intro q ccont hne hq
  rw [vpA_eq_cog fs pf sf q an cc pc pcont ccont scont hp hq hs hne]
  simp only [viewerCmds_mk, zoomTargets_append, zoomTargets_poseCmds]
  simp [zoomTargets]

/-- C7 witness: on the concrete filesystem with no cognate, Variant A zooms
to model 0 while the source variant zooms to model 1. -/
theorem c7_variant_divergence_witness :
    zoomTargets (viewerCmds (visualize_poses_A fsEx "prot.pdb" "poses.sdf"
        none true none none)) = [0]
    ∧ zoomTargets (viewerCmds (visualize_poses fsEx "prot.pdb" "poses.sdf"
        none true none none none)) = [1] := by
  have h := (c7_variant_divergence fsEx "prot.pdb" "poses.sdf" true none none
    none "PROT" "POSES" rfl rfl).1
  exact ⟨h.1, h.2.1⟩

/-- C8 counterexample: the claim states that no styling command precedes
the read of any input file; but in a concrete call the protein styling
command is issued third, while the pose file (and the cognate file) are
only read afterwards. -/
theorem c8_counterexample :
    (visualize_poses fsEx "prot.pdb" "poses.sdf" (some "cog.sdf")
        true none none none).events.take 3
      = [Event.readF "prot.pdb", Event.cmd (Cmd.addModel "PROT"),
         Event.cmd Cmd.setStyleAll]
    ∧ Event.readF "poses.sdf" ∈
      ((visualize_poses fsEx "prot.pdb" "poses.sdf" (some "cog.sdf")
        true none none none).events.drop 3) := by
  decide

/-- C8 (amended): reads and styling interleave in a fixed order, and each
file is read before any command concerning the model it loads: the trace
is exactly protein read, protein model and styling, highlights, then (when
a cognate is given) cognate read, cognate model and styling, then pose
read, pose commands, zoom and rotate.  In particular the protein styling
and highlight commands precede the cognate and pose reads, so not every
read precedes every styling call. -/
theorem c8_read_order (fs : String → Option String) (pf sf : String)
    (an : Bool) (cc pc : Option String) (hr : Option (List Int))
    (pcont scont : String)
    (hp : fs pf = some pcont) (hs : fs sf = some scont) :
    ((visualize_poses fs pf sf none an cc pc hr).events
      = Event.readF pf ::
          (([Cmd.addModel pcont, Cmd.setStyleAll] ++ highlightCmds hr).map Event.cmd
          ++ [Event.readF sf]
          ++ (poseCmds an scont (pc.getD "green") 0
              ++ [Cmd.zoomTo 1, Cmd.rotate 270]).map Event.cmd))
    ∧ (∀ q ccont, q ≠ "" → fs q = some ccont →
        (visualize_poses fs pf sf (some q) an cc pc hr).events
          = Event.readF pf ::
              (([Cmd.addModel pcont, Cmd.setStyleAll] ++ highlightCmds hr).map Event.cmd
              ++ [Event.readF q]
              ++ [Event.cmd (Cmd.addModel ccont),
                  Event.cmd (Cmd.setStyleModel 1 ((cc.getD "yellow") ++ "Carbon") (some "0.25"))]
              ++ [Event.readF sf]
              ++ (poseCmds an scont (pc.getD "green") 1
                  ++ [Cmd.zoomTo 1, Cmd.rotate 270]).map Event.cmd)) := by
  constructor
  · rw [vp_eq_no_cog fs pf sf none an cc pc hr pcont scont hp hs rfl]
  · intro q ccont hne hq
    rw [vp_eq_cog fs pf sf q an cc pc hr pcont ccont scont hp hq hs hne]

/-- C8 witness: the amended trace shape at a concrete call with no
cognate file. -/
theorem c8_read_order_witness :
    (visualize_poses fsEx "prot.pdb" "poses.sdf" none true none none
        none).events
      = Event.readF "prot.pdb" ::
          (([Cmd.addModel "PROT", Cmd.setStyleAll] ++ highlightCmds none).map Event.cmd
          ++ [Event.readF "poses.sdf"]
          ++ (poseCmds true "POSES" "green" 0
              ++ [Cmd.zoomTo 1, Cmd.rotate 270]).map Event.cmd) :=
  (c8_read_order fsEx "prot.pdb" "poses.sdf" true none none none
    "PROT" "POSES" rfl rfl).1

/-- C9: passing the empty highlight list gives exactly the same result as
passing none, and no sphere-highlight command is ever issued. -/
theorem c9_empty_highlight_list (fs : String → Option String) (pf sf : String)
    (cf : Option String) (an : Bool) (cc pc : Option String) :
    visualize_poses fs pf sf cf an cc pc (some [])
      = visualize_poses fs pf sf cf an cc pc none
    ∧ highlightsOf (cmdsOf (visualize_poses fs pf sf cf an cc pc
        (some [])).events) = [] := by
  have h : visualize_poses fs pf sf cf an cc pc (some [])
      = visualize_poses fs pf sf cf an cc pc none := by
    have hh : highlightCmds (some ([] : List Int)) = highlightCmds none := rfl
    unfold visualize_poses
    rw [hh]
  refine ⟨h, ?_⟩
  rw [h]
  exact no_highlights_of_none fs pf sf cf an cc pc

/-- C10: the call is deterministic: the result depends only on the
arguments and the contents behind the three given paths, so two calls with
identical arguments and filesystems agreeing on those paths produce
identical event sequences and identical returned viewers. -/
theorem c10_deterministic (fs1 fs2 : String → Option String)
    (pf sf : String) (cf : Option String) (an : Bool)
    (cc pc : Option String) (hr : Option (List Int))
    (hpf : fs1 pf = fs2 pf) (hsf : fs1 sf = fs2 sf)
    (hcq : ∀ q, cf = some q → fs1 q = fs2 q) :
    visualize_poses fs1 pf sf cf an cc pc hr
      = visualize_poses fs2 pf sf cf an cc pc hr := by
  rcases cf with _ | q
  · rcases hfp : fs2 pf with _ | pcont
    · rw [vp_protein_err fs1 pf sf none an cc pc hr (hpf.trans hfp),
        vp_protein_err fs2 pf sf none an cc pc hr hfp]
    · rcases hfs : fs2 sf with _ | scont
      · rw [vp_pose_err_no_cog fs1 pf sf none an cc pc hr pcont
            (hpf.trans hfp) (hsf.trans hfs) rfl,
          vp_pose_err_no_cog fs2 pf sf none an cc pc hr pcont hfp hfs rfl]
      · rw [vp_eq_no_cog fs1 pf sf none an cc pc hr pcont scont
            (hpf.trans hfp) (hsf.trans hfs) rfl,
          vp_eq_no_cog fs2 pf sf none an cc pc hr pcont scont hfp hfs rfl]
  · have hq := hcq q rfl
    by_cases hne : q = ""
    · subst hne
      have htr : truthyStr (some "") = false := rfl
      rcases hfp : fs2 pf with _ | pcont
      · rw [vp_protein_err fs1 pf sf (some "") an cc pc hr (hpf.trans hfp),
          vp_protein_err fs2 pf sf (some "") an cc pc hr hfp]
      · rcases hfs : fs2 sf with _ | scont
        · rw [vp_pose_err_no_cog fs1 pf sf (some "") an cc pc hr pcont
              (hpf.trans hfp) (hsf.trans hfs) htr,
            vp_pose_err_no_cog fs2 pf sf (some "") an cc pc hr pcont hfp hfs htr]
        · rw [vp_eq_no_cog fs1 pf sf (some "") an cc pc hr pcont scont
              (hpf.trans hfp) (hsf.trans hfs) htr,
            vp_eq_no_cog fs2 pf sf (some "") an cc pc hr pcont scont hfp hfs htr]
    · rcases hfp : fs2 pf with _ | pcont
      · rw [vp_protein_err fs1 pf sf (some q) an cc pc hr (hpf.trans hfp),
          vp_protein_err fs2 pf sf (some q) an cc pc hr hfp]
      · rcases hfq : fs2 q with _ | ccont
        · rw [vp_cog_err fs1 pf sf q an cc pc hr pcont (hpf.trans hfp)
              (hq.trans hfq) hne,
            vp_cog_err fs2 pf sf q an cc pc hr pcont hfp hfq hne]
        · rcases hfs : fs2 sf with _ | scont
          · rw [vp_pose_err_cog fs1 pf sf q an cc pc hr pcont ccont
                (hpf.trans hfp) (hq.trans hfq) (hsf.trans hfs) hne,
              vp_pose_err_cog fs2 pf sf q an cc pc hr pcont ccont hfp hfq hfs hne]
          · rw [vp_eq_cog fs1 pf sf q an cc pc hr pcont ccont scont
                (hpf.trans hfp) (hq.trans hfq) (hsf.trans hfs) hne,
              vp_eq_cog fs2 pf sf q an cc pc hr pcont ccont scont hfp hfq hfs hne]

/-- A second concrete filesystem differing from fsEx only on a path the
witness call never touches. -/
def fsEx2 : String → Option String := fun p =>
  if p = "other.txt" then some "OTHER" else fsEx p

/-- C10 witness: two filesystems that agree on the three input paths give
identical results at a concrete call. -/
theorem c10_deterministic_witness :
    visualize_poses fsEx "prot.pdb" "poses.sdf" (some "cog.sdf")
        true none none (some [7])
      = visualize_poses fsEx2 "prot.pdb" "poses.sdf" (some "cog.sdf")
        true none none (some [7]) :=
  c10_deterministic fsEx fsEx2 "prot.pdb" "poses.sdf" (some "cog.sdf")
    true none none (some [7]) rfl rfl
    (fun q h => by cases h; rfl)

end PoseViz
